import Mathlib

/-!
Verification of the fetch-orchestration core of the star-wars-frontend
widget (`src/Routes/components/ProductGrid.jsx`), shallowly embedded in
Lean 4.  Network calls are modelled by oracles `String → Except String _`
mapping a URL to its (deterministic) response; asynchronous runs are
modelled atomically as state transformers, with the intermediate
`loading = true` state exposed by `fetchCharactersPending`, and issued
GET requests and console logs recorded explicitly as effect traces.
-/

namespace StarWars

/-- A character summary record as returned by the paginated endpoint.
`homeworld` uses `Option` for the JS truthiness test `if (char.homeworld)`;
`species` and `films` are URL lists (the source also guards them with
`char.species && ...`, i.e. absent behaves like empty). -/
structure Character where
  name : String
  birth_year : String
  gender : String
  homeworld : Option String
  species : List String
  films : List String
deriving Repr, DecidableEq

/-- A resolved cross-referenced resource; homeworld/species lookups read
`.name`, film lookups read `.title`. -/
structure Resource where
  name : String
  title : String
deriving Repr, DecidableEq

/-- The enriched detail object built by `fetchCharacterDetails`
(`const details = {...char}` plus the three resolved fields). -/
structure CharacterDetail where
  base : Character
  homeworld_name : Option String
  species_name : String
  film_titles : List String
deriving Repr, DecidableEq

/-- Response of the list endpoint: `{results, total}`. -/
structure PageResult where
  results : List Character
  total : Nat
deriving Repr, DecidableEq

/-- The component state: the six `useState` hooks of `ProductGrid`. -/
structure UIState where
  characters : List Character
  search : String
  currentPage : Nat
  selectedChar : Option CharacterDetail
  totalPages : Nat
  loading : Bool
deriving Repr, DecidableEq

/-- Effect trace of one `fetchCharacters` run: the GET requests issued
(by URL) and the console-error logs emitted. -/
structure FetchEffects where
  requests : List String
  logs : List String
deriving Repr, DecidableEq

/-- Initial state at mount: `[], "", 1, null, 1, false`. -/
def initialState : UIState :=
  ⟨[], "", 1, none, 1, false⟩

def itemsPerPage : Nat := 10

/-- `Math.ceil (a / b)` for non-negative integers. -/
def jsCeilDiv (a b : Nat) : Nat := (a + b - 1) / b

/-- The list-endpoint URL built by `fetchCharacters`:
`` `https://…/characters?${query ? `search=${query}&` : ""}page=${page}` ``
(the empty string is falsy in JS). -/
def charactersURL (query : String) (page : Nat) : String :=
  "https://star-wars-backend-hne5.onrender.com/characters?" ++
    (if query = "" then "" else "search=" ++ query ++ "&") ++
    "page=" ++ toString page

/-- The query parameters of `charactersURL`, structurally: `search`
present iff the query is non-empty, `page` always present. -/
def urlParams (query : String) (page : Nat) : List (String × String) :=
  (if query = "" then [] else [("search", query)]) ++ [("page", toString page)]

/-- Renders a parameter list as `k1=v1&k2=v2&…`. -/
def renderParams : List (String × String) → String
  | [] => ""
  | [(k, v)] => k ++ "=" ++ v
  | (k, v) :: p :: rest => k ++ "=" ++ v ++ "&" ++ renderParams (p :: rest)

/-- The `setLoading(true)` at the top of `fetchCharacters`. -/
def fetchCharactersPending (s : UIState) : UIState :=
  { s with loading := true }

/-- One full run of `fetchCharacters(query, page)` against network oracle
`net`: set loading, issue the single GET, commit results and
`Math.ceil(total / itemsPerPage)` on success, reset to `[]` / `1` and log
on error, and clear loading in the `finally` block either way. -/
def fetchCharacters (net : String → Except String PageResult)
    (query : String) (page : Nat) (s : UIState) : UIState × FetchEffects :=
  let s1 := fetchCharactersPending s
  let url := charactersURL query page
  match net url with
  | .ok res =>
      ({ s1 with
          characters := res.results
          totalPages := jsCeilDiv res.total itemsPerPage
          loading := false },
       ⟨[url], []⟩)
  | .error e =>
      ({ s1 with
          characters := []
          totalPages := 1
          loading := false },
       ⟨[url], ["Error fetching characters: " ++ e]⟩)

/-- The `useEffect(..., [currentPage])` body: `fetchCharacters("", currentPage)`.
Note the hard-coded empty query. -/
def pageEffectStep (net : String → Except String PageResult) (s : UIState) :
    UIState × FetchEffects :=
  fetchCharacters net "" s.currentPage s

/-- The debounced callback body: `setCurrentPage(1); fetchCharacters(query, 1)`. -/
def debounceFireStep (net : String → Except String PageResult)
    (query : String) (s : UIState) : UIState × FetchEffects :=
  fetchCharacters net query 1 { s with currentPage := 1 }

/-- `lodash.debounce` wait in milliseconds. -/
def debounceDelay : Nat := 500

/-- Trailing-edge debounce over a time-stamped input stream (times
strictly increasing): each new input cancels a pending timer and
re-arms it `debounceDelay` later; a timer that survives until the next
input (or the end of the stream) fires, emitting `(fireTime, term)`. -/
def debounceRun : List (Nat × String) → List (Nat × String)
  | [] => []
  | (t, q) :: rest =>
    match rest with
    | [] => [(t + debounceDelay, q)]
    | (tn, qn) :: rest2 =>
      if tn < t + debounceDelay then debounceRun ((tn, qn) :: rest2)
      else (t + debounceDelay, q) :: debounceRun ((tn, qn) :: rest2)

/-- Requests issued by one `fetchCharacterDetails` run, split by phase
(homeworld lookup, species lookup, film lookups). -/
structure DetailTrace where
  homeworldReqs : List String
  speciesReqs : List String
  filmReqs : List String
deriving Repr, DecidableEq

/-- `Promise.all(urls.map(url => axios.get(url)))` followed by extraction:
resolve every URL, failing as a whole if any single fetch fails.
(`Promise.all` rejects with the first rejection to settle; here failure
identity is collapsed to the first failing index, which is all the
claims depend on.) -/
def exceptsAll {ε α β : Type} (f : α → Except ε β) : List α → Except ε (List β)
  | [] => .ok []
  | x :: xs =>
    match f x with
    | .error e => .error e
    | .ok y =>
      match exceptsAll f xs with
      | .error e => .error e
      | .ok ys => .ok (y :: ys)

/-- Film phase of `fetchCharacterDetails`: if `films` is non-empty, GET
them all via `Promise.all` and map out `.title` in input order; if empty,
`film_titles = []` with no request.  (`exceptsAll f [] = .ok []` makes the
two source branches one equation.) -/
def detailFilmsStep (netR : String → Except String Resource) (c : Character)
    (hn : Option String) (sn : String) (hr sr : List String) :
    Except String CharacterDetail × DetailTrace :=
  match exceptsAll netR c.films with
  | .error e => (.error e, ⟨hr, sr, c.films⟩)
  | .ok rs => (.ok ⟨c, hn, sn, rs.map (fun r => r.title)⟩, ⟨hr, sr, c.films⟩)

/-- Species phase of `fetchCharacterDetails`: fetch only the first URL of
a non-empty `species` list and read its `.name`; default `"Unknown"` when
the list is empty. -/
def detailSpeciesStep (netR : String → Except String Resource) (c : Character)
    (hn : Option String) (hr : List String) :
    Except String CharacterDetail × DetailTrace :=
  match c.species with
  | [] => detailFilmsStep netR c hn "Unknown" hr []
  | su :: _ =>
    match netR su with
    | .error e => (.error e, ⟨hr, [su], []⟩)
    | .ok sp => detailFilmsStep netR c hn sp.name hr [su]

/-- One full run of `fetchCharacterDetails(char)` against resource oracle
`netR`: homeworld, then species, then films; the enclosing `try` makes any
fetch failure abort the whole run with an error (the detail built so far
is discarded). -/
def fetchCharacterDetails (netR : String → Except String Resource)
    (c : Character) : Except String CharacterDetail × DetailTrace :=
  match c.homeworld with
  | none => detailSpeciesStep netR c none []
  | some hu =>
    match netR hu with
    | .error e => (.error e, ⟨[hu], [], []⟩)
    | .ok hw => detailSpeciesStep netR c (some hw.name) [hu]

/-- The card `onClick` handler: run the enrichment; on success commit the
detail via `setSelectedChar(details)`, on failure log and leave the state
untouched (the `catch` block only calls `console.error`). -/
def itemClickStep (netR : String → Except String Resource) (c : Character)
    (s : UIState) : UIState × List String :=
  match (fetchCharacterDetails netR c).1 with
  | .ok d => ({ s with selectedChar := some d }, [])
  | .error e => (s, ["Error fetching character details: " ++ e])

/-- User and effect events the component reacts to. -/
inductive Event where
  | pageEffect
  | debounceFire (q : String)
  | inputSearch (t : String)
  | prevClick
  | nextClick
  | pageClick (i : Nat)
  | itemClick (c : Character)
  | closeModal
deriving Repr, DecidableEq

/-- One event step of the component.  `pageEffect` is the
`useEffect(..., [currentPage])` body (fires at mount and after every
`currentPage` change); `debounceFire` is the debounced-search commit;
`prevClick` / `nextClick` clamp with `Math.max(prev-1, 1)` /
`Math.min(prev+1, totalPages)`; numbered page buttons exist only for
`1..totalPages`. -/
def step (net : String → Except String PageResult)
    (netR : String → Except String Resource) (s : UIState) : Event → UIState
  | .pageEffect => (pageEffectStep net s).1
  | .debounceFire q => (debounceFireStep net q s).1
  | .inputSearch t => { s with search := t }
  | .prevClick => { s with currentPage := max (s.currentPage - 1) 1 }
  | .nextClick => { s with currentPage := min (s.currentPage + 1) s.totalPages }
  | .pageClick i => if 1 ≤ i ∧ i ≤ s.totalPages then { s with currentPage := i } else s
  | .itemClick c => (itemClickStep netR c s).1
  | .closeModal => { s with selectedChar := none }

/-- States reachable from `initialState` under arbitrary event
interleavings and arbitrary network responses. -/
inductive Reachable : UIState → Prop where
  | init : Reachable initialState
  | next {s : UIState} (h : Reachable s)
      (net : String → Except String PageResult)
      (netR : String → Except String Resource) (e : Event) :
      Reachable (step net netR s e)

/-! ### Arrival-order model of `Promise.all`

`Promise.all` starts every request at once; responses settle in an
arbitrary arrival order, and the join stores each response at the array
index of its originating request, not at its arrival position.  We model
a completion schedule as the list of indices in settlement order and show
the join's output is the input-ordered result list for every schedule. -/

/-- Write `a` at index `n` of a slot array (no-op when out of range). -/
def setSlot {α : Type} : List (Option α) → Nat → α → List (Option α)
  | [], _, _ => []
  | _ :: xs, 0, a => some a :: xs
  | x :: xs, n + 1, a => x :: setSlot xs n a

/-- The settlement of the `i`-th request of `Promise.all(urls.map(get))`:
its (deterministic) response, or `none` if the index is invalid or the
fetch rejects. -/
def settleOutcome (netR : String → Except String Resource)
    (urls : List String) (i : Nat) : Option Resource :=
  match urls.get? i with
  | none => none
  | some u =>
    match netR u with
    | .ok r => some r
    | .error _ => none

/-- Process settlements in arrival order, storing each at its request
index; the first rejection fails the whole join. -/
def fillSlots (netR : String → Except String Resource) (urls : List String) :
    List Nat → List (Option Resource) → Option (List (Option Resource))
  | [], slots => some slots
  | i :: rest, slots =>
    match settleOutcome netR urls i with
    | none => none
    | some r => fillSlots netR urls rest (setSlot slots i r)

/-- Read a fully-filled slot array back into a plain list. -/
def collectSlots {α : Type} : List (Option α) → Option (List α)
  | [] => some []
  | none :: _ => none
  | some a :: rest =>
    match collectSlots rest with
    | none => none
    | some as => some (a :: as)

/-- `Promise.all(urls.map(get))` under completion schedule `order`. -/
def runArrival (netR : String → Except String Resource)
    (urls : List String) (order : List Nat) : Option (List Resource) :=
  match fillSlots netR urls order (List.replicate urls.length none) with
  | none => none
  | some slots => collectSlots slots

/-- `Math.ceil (a / 10)` agrees with the mathematical ceiling of `a / 10`. -/
lemma jsCeilDiv_ten (a : ℕ) : jsCeilDiv a 10 = ⌈(a : ℚ) / 10⌉₊ := by
  have h1 : (a : ℚ) / 10 ≤ (⌈(a : ℚ) / 10⌉₊ : ℚ) := Nat.le_ceil _
  have h3 : a ≤ ⌈(a : ℚ) / 10⌉₊ * 10 := by
    have h2 : (a : ℚ) ≤ (⌈(a : ℚ) / 10⌉₊ : ℚ) * 10 := by
      have h10 : (0 : ℚ) < 10 := by norm_num
      exact (div_le_iff₀ h10).mp h1
    exact_mod_cast h2
  apply Nat.le_antisymm
  · rw [jsCeilDiv]; omega
  · rw [Nat.ceil_le, jsCeilDiv]
    have key : a ≤ (a + 10 - 1) / 10 * 10 := by omega
    have h10 : (0 : ℚ) < 10 := by norm_num
    rw [div_le_iff₀ h10]
    exact_mod_cast key

/-! ### Supporting lemmas -/

lemma setSlot_length {α : Type} (l : List (Option α)) (n : Nat) (a : α) :
    (setSlot l n a).length = l.length := by
  induction l generalizing n with
  | nil => rfl
  | cons x xs ih =>
    cases n with
    | zero => rfl
    | succ m => simp [setSlot, ih]

lemma setSlot_get? {α : Type} (l : List (Option α)) (n : Nat) (a : α) (j : Nat) :
    (setSlot l n a).get? j =
      if j = n ∧ n < l.length then some (some a) else l.get? j := by
  induction l generalizing n j with
  | nil => simp [setSlot]
  | cons x xs ih =>
    cases n with
    | zero =>
      cases j with
      | zero => simp [setSlot]
      | succ k => simp [setSlot]
    | succ m =>
      cases j with
      | zero => simp [setSlot]
      | succ k => simpa [setSlot] using ih m k

lemma collectSlots_map_some {α : Type} (l : List α) :
    collectSlots (l.map some) = some l := by
  induction l with
  | nil => rfl
  | cons x xs ih => simp [collectSlots, ih]

lemma exceptsAll_length {ε α β : Type} (f : α → Except ε β) :
    ∀ (l : List α) (ys : List β), exceptsAll f l = .ok ys → ys.length = l.length := by
  intro l
  induction l with
  | nil =>
    intro ys h
    simp only [exceptsAll] at h
    injection h with h2
    simp [← h2]
  | cons x xs ih =>
    intro ys h
    simp only [exceptsAll] at h
    cases hfx : f x with
    | error e => rw [hfx] at h; exact absurd h (by simp)
    | ok y =>
      rw [hfx] at h
      cases hxs : exceptsAll f xs with
      | error e => rw [hxs] at h; exact absurd h (by simp)
      | ok ys0 =>
        rw [hxs] at h
        injection h with h2
        simp [← h2, ih ys0 hxs]

lemma exceptsAll_get? {ε α β : Type} (f : α → Except ε β) :
    ∀ (l : List α) (ys : List β), exceptsAll f l = .ok ys →
      ∀ (i : Nat) (u : α), l.get? i = some u →
        ∃ y, f u = .ok y ∧ ys.get? i = some y := by
  intro l
  induction l with
  | nil => intro ys h i u hu; simp at hu
  | cons x xs ih =>
    intro ys h i u hu
    simp only [exceptsAll] at h
    cases hfx : f x with
    | error e => rw [hfx] at h; exact absurd h (by simp)
    | ok y =>
      rw [hfx] at h
      cases hxs : exceptsAll f xs with
      | error e => rw [hxs] at h; exact absurd h (by simp)
      | ok ys0 =>
        rw [hxs] at h
        injection h with h2
        subst h2
        cases i with
        | zero =>
          simp at hu
          subst hu
          exact ⟨y, hfx, rfl⟩
        | succ k =>
          simp only [List.get?_cons_succ] at hu
          obtain ⟨y2, hy2, hget⟩ := ih ys0 hxs k u hu
          exact ⟨y2, hy2, by simpa using hget⟩

lemma settle_of_exceptsAll (netR : String → Except String Resource)
    (urls : List String) (rs : List Resource)
    (h : exceptsAll netR urls = .ok rs) (j : Nat) :
    settleOutcome netR urls j = rs.get? j := by
  cases hu : urls.get? j with
  | none =>
    have hlen := exceptsAll_length netR urls rs h
    have hj : urls.length ≤ j := List.get?_eq_none.mp hu
    have hrs : rs.get? j = none := List.get?_eq_none.mpr (by omega)
    unfold settleOutcome
    simp only [hu, hrs]
  | some u =>
    obtain ⟨y, hfy, hy⟩ := exceptsAll_get? netR urls rs h j u hu
    unfold settleOutcome
    simp only [hu, hfy, hy]

lemma fillSlots_spec (netR : String → Except String Resource)
    (urls : List String) (g : Nat → Resource) :
    ∀ (order : List Nat) (slots : List (Option Resource)),
      (∀ i ∈ order, settleOutcome netR urls i = some (g i)) →
      (∀ i ∈ order, i < slots.length) →
      ∃ slots', fillSlots netR urls order slots = some slots' ∧
        slots'.length = slots.length ∧
        ∀ j, slots'.get? j =
          if j ∈ order ∧ j < slots.length then some (some (g j))
          else slots.get? j := by
  intro order
  induction order with
  | nil =>
    intro slots _ _
    exact ⟨slots, rfl, rfl, by simp⟩
  | cons i rest ih =>
    intro slots hset hlen
    have hi : settleOutcome netR urls i = some (g i) := hset i (by simp)
    have hilen : i < slots.length := hlen i (by simp)
    obtain ⟨slots', h1, h2, h3⟩ :=
      ih (setSlot slots i (g i))
        (fun j hj => hset j (List.mem_cons_of_mem _ hj))
        (fun j hj => by
          rw [setSlot_length]; exact hlen j (List.mem_cons_of_mem _ hj))
    refine ⟨slots', by simp [fillSlots, hi, h1], by rw [h2, setSlot_length], ?_⟩
    intro j
    rw [h3 j, setSlot_get?, setSlot_length]
    by_cases hjr : j ∈ rest
    · have hjl : j < slots.length := hlen j (List.mem_cons_of_mem _ hjr)
      simp [hjr, hjl]
    · by_cases hji : j = i
      · subst hji
        simp [hjr, hilen]
      · simp [hjr, hji]

/-- The join of `Promise.all` yields the input-ordered result list under
EVERY completion schedule covering the requests. -/
lemma runArrival_eq (netR : String → Except String Resource)
    (urls : List String) (order : List Nat) (rs : List Resource)
    (hok : exceptsAll netR urls = .ok rs)
    (hcover : ∀ j, j < urls.length → j ∈ order)
    (hmem : ∀ j ∈ order, j < urls.length) :
    runArrival netR urls order = some rs := by
  have hlen : rs.length = urls.length := exceptsAll_length netR urls rs hok
  have hset : ∀ i ∈ order,
      settleOutcome netR urls i = some ((rs.get? i).getD ⟨"", ""⟩) := by
    intro i hi
    have hilt : i < urls.length := hmem i hi
    have hir : i < rs.length := by omega
    rw [settle_of_exceptsAll netR urls rs hok i, List.get?_eq_get hir]
    rfl
  obtain ⟨slots', h1, h2, h3⟩ :=
    fillSlots_spec netR urls (fun i => (rs.get? i).getD ⟨"", ""⟩) order
      (List.replicate urls.length none) hset
      (by intro i hi; simpa using hmem i hi)
  have hslots : slots' = rs.map some := by
    apply List.ext_get?
    intro j
    rw [h3 j, List.get?_map]
    by_cases hj : j < urls.length
    · have hjr : j < rs.length := by omega
      have hcond : j ∈ order ∧
          j < (List.replicate urls.length (none : Option Resource)).length := by
        simp [hcover j hj, hj]
      rw [if_pos hcond, List.get?_eq_get hjr]
      rfl
    · have hrs : rs.get? j = none := List.get?_eq_none.mpr (by omega)
      have hcond : ¬ (j ∈ order ∧
          j < (List.replicate urls.length (none : Option Resource)).length) := by
        simp only [List.length_replicate]
        intro hc
        exact hj (hmem j hc.1)
      rw [if_neg (by simpa using hcond), hrs]
      simp [List.get?_eq_none.mpr, hj, Nat.le_of_not_lt]
  simp only [runArrival, h1, hslots]
  exact collectSlots_map_some rs

lemma detailFilmsStep_ok (netR : String → Except String Resource)
    (c : Character) (hn : Option String) (sn : String) (hr sr : List String)
    (d : CharacterDetail) (tr : DetailTrace)
    (h : detailFilmsStep netR c hn sn hr sr = (.ok d, tr)) :
    ∃ rs, exceptsAll netR c.films = .ok rs ∧
      d = ⟨c, hn, sn, rs.map (fun r => r.title)⟩ ∧ tr = ⟨hr, sr, c.films⟩ := by
  unfold detailFilmsStep at h
  cases hall : exceptsAll netR c.films with
  | error e => rw [hall] at h; exact absurd h (by simp)
  | ok rs =>
    rw [hall] at h
    injection h with h1 h2
    injection h1 with h1
    exact ⟨rs, rfl, h1.symm, h2.symm⟩

lemma detailSpeciesStep_ok (netR : String → Except String Resource)
    (c : Character) (hn : Option String) (hr : List String)
    (d : CharacterDetail) (tr : DetailTrace)
    (h : detailSpeciesStep netR c hn hr = (.ok d, tr)) :
    ∃ sn sr, detailFilmsStep netR c hn sn hr sr = (.ok d, tr) ∧
      ((c.species = [] ∧ sn = "Unknown" ∧ sr = []) ∨
       (∃ su rest sp, c.species = su :: rest ∧ netR su = .ok sp ∧
          sn = sp.name ∧ sr = [su])) := by
  unfold detailSpeciesStep at h
  cases hsp : c.species with
  | nil =>
    rw [hsp] at h
    exact ⟨"Unknown", [], h, Or.inl ⟨rfl, rfl, rfl⟩⟩
  | cons su rest =>
    rw [hsp] at h
    cases hnet : netR su with
    | error e => simp only [hnet] at h; exact absurd h (by simp)
    | ok sp =>
      simp only [hnet] at h
      exact ⟨sp.name, [su], h, Or.inr ⟨su, rest, sp, rfl, hnet, rfl, rfl⟩⟩

lemma fetchCharacterDetails_ok (netR : String → Except String Resource)
    (c : Character) (d : CharacterDetail) (tr : DetailTrace)
    (h : fetchCharacterDetails netR c = (.ok d, tr)) :
    ∃ hn hr, detailSpeciesStep netR c hn hr = (.ok d, tr) ∧
      ((c.homeworld = none ∧ hn = none ∧ hr = []) ∨
       (∃ hu hw, c.homeworld = some hu ∧ netR hu = .ok hw ∧
          hn = some hw.name ∧ hr = [hu])) := by
  unfold fetchCharacterDetails at h
  cases hhw : c.homeworld with
  | none =>
    rw [hhw] at h
    exact ⟨none, [], h, Or.inl ⟨rfl, rfl, rfl⟩⟩
  | some hu =>
    rw [hhw] at h
    cases hnet : netR hu with
    | error e => simp only [hnet] at h; exact absurd h (by simp)
    | ok hw =>
      simp only [hnet] at h
      exact ⟨some hw.name, [hu], h, Or.inr ⟨hu, hw, rfl, hnet, rfl, rfl⟩⟩

lemma exceptsAll_error_of_mem {ε α β : Type} (f : α → Except ε β) :
    ∀ (l : List α) (u : α), u ∈ l → (∃ e, f u = .error e) →
      ∃ e2, exceptsAll f l = .error e2 := by
  intro l
  induction l with
  | nil => intro u hu _; simp at hu
  | cons x xs ih =>
    intro u hu he
    obtain ⟨e, he⟩ := he
    cases hfx : f x with
    | error e2 => exact ⟨e2, by simp [exceptsAll, hfx]⟩
    | ok y =>
      rcases List.mem_cons.mp hu with h1 | h1
      · subst h1; simp [he] at hfx
      · obtain ⟨e2, he2⟩ := ih u h1 ⟨e, he⟩
        exact ⟨e2, by simp [exceptsAll, hfx, he2]⟩

lemma detailFilmsStep_error (netR : String → Except String Resource)
    (c : Character) (hn : Option String) (sn : String) (hr sr : List String)
    (hfail : ∃ fu e, fu ∈ c.films ∧ netR fu = .error e) :
    ∃ e2, (detailFilmsStep netR c hn sn hr sr).1 = .error e2 := by
  obtain ⟨fu, e, hmem, he⟩ := hfail
  obtain ⟨e2, he2⟩ := exceptsAll_error_of_mem netR c.films fu hmem ⟨e, he⟩
  exact ⟨e2, by simp [detailFilmsStep, he2]⟩

lemma detailSpeciesStep_error (netR : String → Except String Resource)
    (c : Character) (hn : Option String) (hr : List String)
    (hfail : (∃ su rest e, c.species = su :: rest ∧ netR su = .error e) ∨
             (∃ fu e, fu ∈ c.films ∧ netR fu = .error e)) :
    ∃ e2, (detailSpeciesStep netR c hn hr).1 = .error e2 := by
  cases hsp : c.species with
  | nil =>
    rcases hfail with ⟨su, rest, e, hr2, _⟩ | hfilm
    · rw [hsp] at hr2; exact absurd hr2 (by simp)
    · obtain ⟨e2, he2⟩ := detailFilmsStep_error netR c hn "Unknown" hr [] hfilm
      exact ⟨e2, by simp [detailSpeciesStep, hsp, he2]⟩
  | cons su rest =>
    cases hnet : netR su with
    | error e => exact ⟨e, by simp [detailSpeciesStep, hsp, hnet]⟩
    | ok sp =>
      rcases hfail with ⟨su2, rest2, e, hr2, he⟩ | hfilm
      · rw [hsp] at hr2
        injection hr2 with hq1 hq2
        subst hq1
        simp [he] at hnet
      · obtain ⟨e2, he2⟩ := detailFilmsStep_error netR c hn sp.name hr [su] hfilm
        exact ⟨e2, by simp [detailSpeciesStep, hsp, hnet, he2]⟩

lemma fetchCharacterDetails_error (netR : String → Except String Resource)
    (c : Character)
    (hfail : (∃ hu e, c.homeworld = some hu ∧ netR hu = .error e) ∨
             (∃ su rest e, c.species = su :: rest ∧ netR su = .error e) ∨
             (∃ fu e, fu ∈ c.films ∧ netR fu = .error e)) :
    ∃ e2, (fetchCharacterDetails netR c).1 = .error e2 := by
  cases hhw : c.homeworld with
  | none =>
    rcases hfail with ⟨hu, e, hr2, _⟩ | hrest
    · rw [hhw] at hr2; exact absurd hr2 (by simp)
    · obtain ⟨e2, he2⟩ := detailSpeciesStep_error netR c none [] hrest
      exact ⟨e2, by simp [fetchCharacterDetails, hhw, he2]⟩
  | some hu =>
    cases hnet : netR hu with
    | error e => exact ⟨e, by simp [fetchCharacterDetails, hhw, hnet]⟩
    | ok hw =>
      rcases hfail with ⟨hu2, e, hr2, he⟩ | hrest
      · rw [hhw] at hr2
        injection hr2 with hq1
        subst hq1
        simp [he] at hnet
      · obtain ⟨e2, he2⟩ := detailSpeciesStep_error netR c (some hw.name) [hu] hrest
        exact ⟨e2, by simp [fetchCharacterDetails, hhw, hnet, he2]⟩

/-- A burst of inputs each arriving strictly within the debounce window
of its predecessor produces exactly one emission: the last term, fired
one window after the last input. -/
lemma debounceRun_rapid :
    ∀ (l : List (Nat × String)) (t : Nat) (q : String),
      List.Chain' (fun p r => p.1 < r.1 ∧ r.1 < p.1 + debounceDelay) ((t, q) :: l) →
      debounceRun ((t, q) :: l) =
        [((((t, q) :: l).getLast (by simp)).1 + debounceDelay,
          (((t, q) :: l).getLast (by simp)).2)] := by
  intro l
  induction l with
  | nil => intro t q _; simp [debounceRun]
  | cons b rest ih =>
    intro t q hch
    obtain ⟨tb, qb⟩ := b
    have hab := (List.chain'_cons.mp hch).1
    have hch2 := (List.chain'_cons.mp hch).2
    have hred : debounceRun ((t, q) :: (tb, qb) :: rest) =
        debounceRun ((tb, qb) :: rest) := by
      show (if tb < t + debounceDelay then debounceRun ((tb, qb) :: rest)
            else (t + debounceDelay, q) :: debounceRun ((tb, qb) :: rest)) =
          debounceRun ((tb, qb) :: rest)
      rw [if_pos hab.2]
    have hlast : ((t, q) :: (tb, qb) :: rest).getLast (by simp) =
        ((tb, qb) :: rest).getLast (by simp) := List.getLast_cons (by simp)
    rw [hred, ih tb qb hch2, hlast]

lemma fetchCharacters_requests (net : String → Except String PageResult)
    (query : String) (page : Nat) (s : UIState) :
    (fetchCharacters net query page s).2.requests = [charactersURL query page] := by
  cases h : net (charactersURL query page) <;> simp [fetchCharacters, h]

lemma fetchCharacters_loading (net : String → Except String PageResult)
    (query : String) (page : Nat) (s : UIState) :
    ((fetchCharacters net query page s).1).loading = false := by
  cases h : net (charactersURL query page) <;> simp [fetchCharacters, fetchCharactersPending, h]

lemma fetchCharacters_currentPage (net : String → Except String PageResult)
    (query : String) (page : Nat) (s : UIState) :
    ((fetchCharacters net query page s).1).currentPage = s.currentPage := by
  cases h : net (charactersURL query page) <;> simp [fetchCharacters, fetchCharactersPending, h]

/-! ### Concrete artifacts for witnesses and counterexamples -/

/-- A list-endpoint oracle that always fails (transport error). -/
def netDown : String → Except String PageResult :=
  fun _ => .error "network down"

/-- A list-endpoint oracle reporting 25 matching records. -/
def netTotal25 : String → Except String PageResult :=
  fun _ => .ok ⟨[], 25⟩

/-- A list-endpoint oracle reporting zero matching records. -/
def netEmptyTotal : String → Except String PageResult :=
  fun _ => .ok ⟨[], 0⟩

/-- A resource oracle resolving one planet, one species and two films;
every other URL fails. -/
def netRSample : String → Except String Resource := fun url =>
  if url = "https://swapi.dev/api/planets/1/" then .ok ⟨"Tatooine", ""⟩
  else if url = "https://swapi.dev/api/species/1/" then .ok ⟨"Human", ""⟩
  else if url = "https://swapi.dev/api/films/1/" then .ok ⟨"", "A New Hope"⟩
  else if url = "https://swapi.dev/api/films/2/" then .ok ⟨"", "The Empire Strikes Back"⟩
  else .error "not found"

/-- The spec's end-to-end example summary: homeworld `planets/1`,
`species = []`, two film URLs. -/
def sampleChar : Character :=
  ⟨"Luke Skywalker", "19BBY", "male", some "https://swapi.dev/api/planets/1/", [],
   ["https://swapi.dev/api/films/1/", "https://swapi.dev/api/films/2/"]⟩

/-- A summary with two valid film URLs and one invalid one. -/
def badFilmsChar : Character :=
  ⟨"Test", "", "", none, [],
   ["https://swapi.dev/api/films/1/", "bad://url", "https://swapi.dev/api/films/2/"]⟩

/-- A summary whose species list is non-empty. -/
def speciesChar : Character :=
  ⟨"Ch", "", "female", none, ["https://swapi.dev/api/species/1/"], []⟩

/-- A state on page 3 of 9, as in the spec's debounce example. -/
def pageThreeState : UIState :=
  { initialState with currentPage := 3, totalPages := 9 }

/-! ### Claim theorems -/

/-- C2: every `fetchCharacters` run sets `loading` at the start and clears
it on completion whatever the outcome, issues exactly one GET (no retry),
and on any error resets `characters` to `[]` and `totalPages` to `1`,
logging the error. -/
theorem claim2_loading_failsoft (net : String → Except String PageResult)
    (query : String) (page : Nat) (s : UIState) :
    (fetchCharactersPending s).loading = true ∧
    ((fetchCharacters net query page s).1).loading = false ∧
    ((fetchCharacters net query page s).2).requests = [charactersURL query page] ∧
    ∀ e, net (charactersURL query page) = .error e →
      ((fetchCharacters net query page s).1).characters = [] ∧
      ((fetchCharacters net query page s).1).totalPages = 1 ∧
      ((fetchCharacters net query page s).2).logs =
        ["Error fetching characters: " ++ e] := by
  refine ⟨rfl, fetchCharacters_loading .., fetchCharacters_requests .., ?_⟩
  intro e he
  refine ⟨?_, ?_, ?_⟩ <;> simp [fetchCharacters, fetchCharactersPending, he]

/-- C2 witness: the failure branch at a concrete failing oracle. -/
theorem claim2_witness :
    (fetchCharactersPending initialState).loading = true ∧
    ((fetchCharacters netDown "luke" 2 initialState).1).loading = false ∧
    ((fetchCharacters netDown "luke" 2 initialState).2).requests =
      [charactersURL "luke" 2] ∧
    ((fetchCharacters netDown "luke" 2 initialState).1).characters = [] ∧
    ((fetchCharacters netDown "luke" 2 initialState).1).totalPages = 1 ∧
    ((fetchCharacters netDown "luke" 2 initialState).2).logs =
      ["Error fetching characters: network down"] := by
  have h := claim2_loading_failsoft netDown "luke" 2 initialState
  obtain ⟨hc, ht, hl⟩ := h.2.2.2 "network down" rfl
  exact ⟨h.1, h.2.1, h.2.2.1, hc, ht, hl⟩

/-- C7: on every successful list fetch the committed `totalPages` is the
ceiling of `total / itemsPerPage`. -/
theorem claim7_totalPages_ceil (net : String → Except String PageResult)
    (query : String) (page : Nat) (s : UIState) (res : PageResult)
    (h : net (charactersURL query page) = .ok res) :
    ((fetchCharacters net query page s).1).totalPages =
      ⌈(res.total : ℚ) / (itemsPerPage : ℚ)⌉₊ := by
  have hv : ((fetchCharacters net query page s).1).totalPages =
      jsCeilDiv res.total itemsPerPage := by
    simp [fetchCharacters, fetchCharactersPending, h]
  have h10 : ((itemsPerPage : ℕ) : ℚ) = 10 := by norm_num [itemsPerPage]
  rw [hv, h10]
  exact jsCeilDiv_ten res.total

/-- C7 witness: 25 records make 3 pages. -/
theorem claim7_witness :
    netTotal25 (charactersURL "" 1) = .ok ⟨[], 25⟩ ∧
    ((fetchCharacters netTotal25 "" 1 initialState).1).totalPages =
      ⌈((⟨[], 25⟩ : PageResult).total : ℚ) / (itemsPerPage : ℚ)⌉₊ ∧
    ((fetchCharacters netTotal25 "" 1 initialState).1).totalPages = 3 :=
  ⟨rfl, claim7_totalPages_ceil netTotal25 "" 1 initialState ⟨[], 25⟩ rfl, rfl⟩

/-- C9: the single GET of `fetchCharacters` carries the `search` parameter
iff the query is non-empty (and then with the query as its value), always
carries the `page` parameter, and the URL renders exactly these
parameters. -/
theorem claim9_single_get_params (net : String → Except String PageResult)
    (query : String) (page : Nat) (s : UIState) :
    charactersURL query page =
      "https://star-wars-backend-hne5.onrender.com/characters?" ++
        renderParams (urlParams query page) ∧
    ((∃ v, ("search", v) ∈ urlParams query page) ↔ query ≠ "") ∧
    (∀ v, ("search", v) ∈ urlParams query page → v = query) ∧
    ("page", toString page) ∈ urlParams query page ∧
    (fetchCharacters net query page s).2.requests = [charactersURL query page] := by
  refine ⟨?_, ?_, ?_, ?_, fetchCharacters_requests ..⟩ <;>
    by_cases hq : query = "" <;>
      simp [charactersURL, urlParams, renderParams, hq, ← String.append_assoc]

/-- C10: enrichment touches no state field but `selectedChar`, and that
only on success; on failure the previous `selectedChar` survives. -/
theorem claim10_detail_frame (netR : String → Except String Resource)
    (c : Character) (s : UIState) :
    ((itemClickStep netR c s).1).characters = s.characters ∧
    ((itemClickStep netR c s).1).search = s.search ∧
    ((itemClickStep netR c s).1).currentPage = s.currentPage ∧
    ((itemClickStep netR c s).1).totalPages = s.totalPages ∧
    ((itemClickStep netR c s).1).loading = s.loading ∧
    (∀ e, (fetchCharacterDetails netR c).1 = .error e →
       ((itemClickStep netR c s).1).selectedChar = s.selectedChar) ∧
    (∀ d, (fetchCharacterDetails netR c).1 = .ok d →
       ((itemClickStep netR c s).1).selectedChar = some d) := by
  cases hf : (fetchCharacterDetails netR c).1 with
  | ok d => simp [itemClickStep, hf]
  | error e => simp [itemClickStep, hf]

/-- C3: if any sub-fetch (homeworld, first species, or any film) fails,
enrichment yields no detail: the run returns an error, the click handler
leaves the whole state (including `selectedChar`) untouched, and the
error is logged. -/
theorem claim3_enrichment_all_or_nothing (netR : String → Except String Resource)
    (c : Character) (s : UIState)
    (hfail : (∃ hu e, c.homeworld = some hu ∧ netR hu = .error e) ∨
             (∃ su rest e, c.species = su :: rest ∧ netR su = .error e) ∨
             (∃ fu e, fu ∈ c.films ∧ netR fu = .error e)) :
    (∃ e2, (fetchCharacterDetails netR c).1 = .error e2) ∧
    (itemClickStep netR c s).1 = s ∧
    (itemClickStep netR c s).2 ≠ [] := by
  obtain ⟨e2, he⟩ := fetchCharacterDetails_error netR c hfail
  refine ⟨⟨e2, he⟩, ?_, ?_⟩ <;> simp [itemClickStep, he]

/-- C3 witness: a summary whose film list holds two valid URLs and one
invalid one yields no detail object. -/
theorem claim3_witness :
    (∃ e2, (fetchCharacterDetails netRSample badFilmsChar).1 = .error e2) ∧
    (itemClickStep netRSample badFilmsChar initialState).1 = initialState ∧
    (itemClickStep netRSample badFilmsChar initialState).2 ≠ [] :=
  claim3_enrichment_all_or_nothing netRSample badFilmsChar initialState
    (Or.inr (Or.inr ⟨"bad://url", "not found",
      by simp [badFilmsChar], by simp [netRSample]⟩))

/-- C8: enrichment resolves `species_name` from the first URL of a
non-empty species list, fetching only that one URL, and defaults it to
`"Unknown"` when the list is empty (with no species request at all). -/
theorem claim8_species_first (netR : String → Except String Resource)
    (c : Character) (d : CharacterDetail) (tr : DetailTrace)
    (h : fetchCharacterDetails netR c = (.ok d, tr)) :
    (c.species = [] → d.species_name = "Unknown" ∧ tr.speciesReqs = []) ∧
    (∀ su rest, c.species = su :: rest →
       tr.speciesReqs = [su] ∧ ∃ sp, netR su = .ok sp ∧ d.species_name = sp.name) := by
  obtain ⟨hn, hr, hsp, _⟩ := fetchCharacterDetails_ok netR c d tr h
  obtain ⟨sn, sr, hf, hscase⟩ := detailSpeciesStep_ok netR c hn hr d tr hsp
  obtain ⟨rs, hall, hd, htr⟩ := detailFilmsStep_ok netR c hn sn hr sr d tr hf
  subst hd htr
  constructor
  · intro hnil
    rcases hscase with ⟨_, hsn, hsr⟩ | ⟨su, rest, sp, hcons, _, _, _⟩
    · exact ⟨by simp [hsn], by simp [hsr]⟩
    · rw [hnil] at hcons; exact absurd hcons (by simp)
  · intro su rest hcons
    rcases hscase with ⟨hnil, _, _⟩ | ⟨su2, rest2, sp, hcons2, hnet, hsn, hsr⟩
    · rw [hcons] at hnil; exact absurd hnil (by simp)
    · rw [hcons] at hcons2
      injection hcons2 with h1 h2
      subst h1
      exact ⟨by simp [hsr], sp, hnet, by simp [hsn]⟩

/-- C8 witness: both branches at concrete summaries (`species = []` gives
`"Unknown"`; a one-element species list is fetched and resolved). -/
theorem claim8_witness :
    ((sampleChar.species = [] →
        (⟨sampleChar, some "Tatooine", "Unknown",
           ["A New Hope", "The Empire Strikes Back"]⟩ : CharacterDetail).species_name =
          "Unknown" ∧
        (⟨["https://swapi.dev/api/planets/1/"], [], sampleChar.films⟩ :
           DetailTrace).speciesReqs = []) ∧
     ((⟨[], ["https://swapi.dev/api/species/1/"], []⟩ : DetailTrace).speciesReqs =
        ["https://swapi.dev/api/species/1/"] ∧
      ∃ sp, netRSample "https://swapi.dev/api/species/1/" = .ok sp ∧
        (⟨speciesChar, none, "Human", []⟩ : CharacterDetail).species_name = sp.name)) := by
  constructor
  · exact (claim8_species_first netRSample sampleChar _ _ rfl).1
  · exact (claim8_species_first netRSample speciesChar _ _ rfl).2
      "https://swapi.dev/api/species/1/" [] rfl

/-- C5: on a successful enrichment all film URLs are requested,
`film_titles` is the positional image of the film list (`i`-th title from
the `i`-th URL's resource), it is empty when `films` is empty, and the
`Promise.all` join returns this same input-ordered list under every
completion schedule. -/
theorem claim5_film_order (netR : String → Except String Resource)
    (c : Character) (d : CharacterDetail) (tr : DetailTrace)
    (h : fetchCharacterDetails netR c = (.ok d, tr)) :
    tr.filmReqs = c.films ∧
    (c.films = [] → d.film_titles = []) ∧
    ∃ rs, exceptsAll netR c.films = .ok rs ∧
      d.film_titles = rs.map (fun r => r.title) ∧
      d.film_titles.length = c.films.length ∧
      (∀ (i : Nat) (hi : i < c.films.length), ∃ r,
         netR (c.films.get ⟨i, hi⟩) = .ok r ∧
         ∃ hj : i < d.film_titles.length, d.film_titles.get ⟨i, hj⟩ = r.title) ∧
      (∀ order : List Nat, (∀ j, j < c.films.length → j ∈ order) →
         (∀ j ∈ order, j < c.films.length) →
         runArrival netR c.films order = some rs) := by
  obtain ⟨hn, hr, hsp, _⟩ := fetchCharacterDetails_ok netR c d tr h
  obtain ⟨sn, sr, hf, _⟩ := detailSpeciesStep_ok netR c hn hr d tr hsp
  obtain ⟨rs, hall, hd, htr⟩ := detailFilmsStep_ok netR c hn sn hr sr d tr hf
  subst hd htr
  have hlen : rs.length = c.films.length := exceptsAll_length netR c.films rs hall
  refine ⟨rfl, ?_, rs, hall, rfl, ?_, ?_, ?_⟩
  · intro hnil
    have hrs : rs = [] := List.length_eq_zero.mp (by rw [hlen, hnil]; rfl)
    simp [hrs]
  · simp [hlen]
  · intro i hi
    have hget : c.films.get? i = some (c.films.get ⟨i, hi⟩) := List.get?_eq_get hi
    obtain ⟨y, hy, hys⟩ := exceptsAll_get? netR c.films rs hall i _ hget
    have hj : i < (rs.map (fun r => r.title)).length := by simp; omega
    refine ⟨y, hy, hj, ?_⟩
    have h1 : (rs.map (fun r => r.title)).get? i = some y.title := by
      rw [List.get?_map, hys]
      rfl
    have h2 := List.get?_eq_get (l := rs.map (fun r => r.title)) (n := i) hj
    rw [h1] at h2
    injection h2 with h2
    exact h2.symm
  · intro order hcov hmem
    exact runArrival_eq netR c.films order rs hall hcov hmem

/-- C5 witness: the sample summary's two films resolve in input order,
also under the reversed completion schedule `[1, 0]`. -/
theorem claim5_witness :
    (⟨["https://swapi.dev/api/planets/1/"], [], sampleChar.films⟩ :
       DetailTrace).filmReqs = sampleChar.films ∧
    ∃ rs, exceptsAll netRSample sampleChar.films = .ok rs ∧
      (⟨sampleChar, some "Tatooine", "Unknown",
         ["A New Hope", "The Empire Strikes Back"]⟩ : CharacterDetail).film_titles =
        rs.map (fun r => r.title) ∧
      runArrival netRSample sampleChar.films [1, 0] = some rs := by
  have h := claim5_film_order netRSample sampleChar
    ⟨sampleChar, some "Tatooine", "Unknown", ["A New Hope", "The Empire Strikes Back"]⟩
    ⟨["https://swapi.dev/api/planets/1/"], [], sampleChar.films⟩ rfl
  obtain ⟨hreq, -, rs, hall, hmap, -, -, hrun⟩ := h
  refine ⟨hreq, rs, hall, hmap, hrun [1, 0] ?_ ?_⟩
  · intro j hj
    simp [sampleChar] at hj
    interval_cases j <;> simp
  · intro j hj
    simp at hj
    rcases hj with rfl | rfl <;> simp [sampleChar]

/-- C4: a burst of search-term inputs each arriving strictly within
500 ms of its predecessor produces exactly one emission — the last term,
500 ms after the last input — and the emitted commit sets `currentPage`
to 1 and fetches that term with `page = 1`. -/
theorem claim4_debounce_single_fetch (inputs : List (Nat × String))
    (hne : inputs ≠ [])
    (hch : List.Chain' (fun p r => p.1 < r.1 ∧ r.1 < p.1 + debounceDelay) inputs) :
    debounceRun inputs =
      [((inputs.getLast hne).1 + debounceDelay, (inputs.getLast hne).2)] ∧
    ∀ (net : String → Except String PageResult) (s : UIState),
      ((debounceFireStep net (inputs.getLast hne).2 s).1).currentPage = 1 ∧
      ((debounceFireStep net (inputs.getLast hne).2 s).2).requests =
        [charactersURL (inputs.getLast hne).2 1] := by
  constructor
  · cases inputs with
    | nil => exact absurd rfl hne
    | cons a l =>
      obtain ⟨t, q⟩ := a
      exact debounceRun_rapid l t q hch
  · intro net s
    refine ⟨?_, fetchCharacters_requests ..⟩
    unfold debounceFireStep
    rw [fetchCharacters_currentPage]

/-- C4 witness: three inputs 100 ms apart fire once with the last term,
and the commit from page 3 fetches page 1. -/
theorem claim4_witness :
    debounceRun [(0, "l"), (100, "lu"), (200, "luke")] = [(700, "luke")] ∧
    ((debounceFireStep netDown "luke" pageThreeState).1).currentPage = 1 ∧
    ((debounceFireStep netDown "luke" pageThreeState).2).requests =
      [charactersURL "luke" 1] := by
  have h := claim4_debounce_single_fetch [(0, "l"), (100, "lu"), (200, "luke")]
    (by simp) (by simp [debounceDelay])
  exact ⟨h.1, (h.2 netDown pageThreeState).1, (h.2 netDown pageThreeState).2⟩

/-- C6 counterexample: the claimed invariant `totalPages ≥ 1 ∧
currentPage ≤ totalPages` fails in a reachable state — the mount fetch
completing with `total = 0` commits `totalPages = Math.ceil(0/10) = 0`
while `currentPage` stays 1. -/
theorem claim6_counterexample :
    Reachable (step netEmptyTotal netRSample initialState .pageEffect) ∧
    ¬ (1 ≤ (step netEmptyTotal netRSample initialState .pageEffect).totalPages ∧
       (step netEmptyTotal netRSample initialState .pageEffect).currentPage ≤
         (step netEmptyTotal netRSample initialState .pageEffect).totalPages) := by
  refine ⟨Reachable.next Reachable.init netEmptyTotal netRSample .pageEffect, ?_⟩
  have h0 : (step netEmptyTotal netRSample initialState .pageEffect).totalPages = 0 := rfl
  rintro ⟨ha, -⟩
  rw [h0] at ha
  exact absurd ha (by decide)

/-- C6 amended: navigation (prev, next, numbered page clicks) is indeed
clamped — from any state satisfying `1 ≤ currentPage ≤ totalPages` every
navigation event keeps `currentPage` in `[1, totalPages]` and leaves
`totalPages` unchanged; the invariant is NOT maintained by fetch
completions (an accepted `total = 0` makes `totalPages = 0`, and the
error path resets `totalPages` to 1 without re-clamping `currentPage`). -/
theorem claim6_amended_nav_clamp (net : String → Except String PageResult)
    (netR : String → Except String Resource) (s : UIState) (e : Event)
    (hnav : e = .prevClick ∨ e = .nextClick ∨ ∃ i, e = .pageClick i)
    (h1 : 1 ≤ s.currentPage) (h2 : s.currentPage ≤ s.totalPages) :
    1 ≤ (step net netR s e).currentPage ∧
    (step net netR s e).currentPage ≤ (step net netR s e).totalPages ∧
    (step net netR s e).totalPages = s.totalPages := by
  rcases hnav with rfl | rfl | ⟨i, rfl⟩
  · refine ⟨?_, ?_, rfl⟩ <;> simp [step] <;> omega
  · refine ⟨?_, ?_, rfl⟩ <;> simp [step] <;> omega
  · by_cases hi : 1 ≤ i ∧ i ≤ s.totalPages
    · refine ⟨?_, ?_, ?_⟩ <;> simp [step, hi] <;> omega
    · refine ⟨?_, ?_, ?_⟩ <;> simp [step, hi] <;> omega

/-- C6 amended witness: next-click from page 3 of 9 stays in range. -/
theorem claim6_witness :
    1 ≤ (step netDown netRSample pageThreeState .nextClick).currentPage ∧
    (step netDown netRSample pageThreeState .nextClick).currentPage ≤
      (step netDown netRSample pageThreeState .nextClick).totalPages ∧
    (step netDown netRSample pageThreeState .nextClick).totalPages =
      pageThreeState.totalPages :=
  claim6_amended_nav_clamp netDown netRSample pageThreeState .nextClick
    (Or.inr (Or.inl rfl)) (by decide) (by decide)

/-- A list-endpoint oracle reporting one result among 20 records
(two pages). -/
def netTwoPages : String → Except String PageResult :=
  fun _ => .ok ⟨[sampleChar], 20⟩

/-- A reachable state with `search = "luke"` and `currentPage = 2`:
mount fetch commits 2 pages, the user types `"luke"`, then clicks next. -/
def claim1State : UIState :=
  step netTwoPages netRSample
    (step netTwoPages netRSample
      (step netTwoPages netRSample initialState .pageEffect)
      (.inputSearch "luke"))
    .nextClick

/-- C1 counterexample: in a reachable state with `search = "luke"` the
`currentPage`-change refetch requests the URL for the EMPTY query, not
the one for the existing search query — the effect body is
`fetchCharacters("", currentPage)`. -/
theorem claim1_counterexample :
    Reachable claim1State ∧
    claim1State.search = "luke" ∧
    claim1State.currentPage = 2 ∧
    (pageEffectStep netTwoPages claim1State).2.requests = [charactersURL "" 2] ∧
    charactersURL "" 2 ≠ charactersURL "luke" 2 := by
  refine ⟨?_, rfl, rfl, ?_, ?_⟩
  · exact Reachable.next (Reachable.next (Reachable.next Reachable.init _ _ _) _ _ _) _ _ _
  · exact fetchCharacters_requests ..
  · decide

/-- C1 amended: the `currentPage`-change effect refetches with the EMPTY
query (the current search term is ignored) and the current page, while
the debounced search commit refetches with the new term and page forced
to 1. -/
theorem claim1_amended_refetch_queries (net : String → Except String PageResult)
    (s : UIState) (q : String) :
    (pageEffectStep net s).2.requests = [charactersURL "" s.currentPage] ∧
    ((debounceFireStep net q s).1).currentPage = 1 ∧
    (debounceFireStep net q s).2.requests = [charactersURL q 1] := by
  refine ⟨fetchCharacters_requests .., ?_, fetchCharacters_requests ..⟩
  unfold debounceFireStep
  rw [fetchCharacters_currentPage]

end StarWars
